import Mathlib

/-!
Verification development for the ECB Data Portal Explorer (`src/app_ecb.py`).

The file shallowly embeds the core data-handling functions of the script —
`build_series_keys_from_selection`, `fetch_series_csv`, `fetch_many` and
`fetch_dsd` — as executable Lean definitions, and proves the behavioural
properties claimed for them.  External effects (HTTP responses, parsed XML
or CSV payloads, date parsing) are passed in as explicit oracle arguments;
everything else is translated directly from the Python source.
-/

set_option linter.unusedVariables false

namespace EcbApp

/-! ## Key builder (`build_series_keys_from_selection`, src/app_ecb.py lines 178–193) -/

/-- `[ (selected.get(dim) or [""]) for dim in dim_ids ]`: a missing or empty
selection for a dimension is replaced by the one-element wildcard list `[""]`
(Python `or` treats both `None` and `[]` as falsy). -/
def wildcardLists (dim_ids : List String) (selected : String → Option (List String)) :
    List (List String) :=
  dim_ids.map fun dim =>
    match selected dim with
    | none => [""]
    | some l => if l.isEmpty then [""] else l

/-- The capacity guard loop:
`total = 1; for lst in ordered_lists: total *= max(1, len(lst)); if total > 5000: raise`.
Returns `false` exactly when the loop raises, stopping at the first offending
prefix without looking at later lists. -/
def capacityCheck : Nat → List (List String) → Bool
  | _, [] => true
  | total, lst :: rest =>
    let t := total * max 1 lst.length
    if t > 5000 then false else capacityCheck t rest

/-- The same guard expressed on the list lengths alone: the loop body reads
only `len(lst)`, never the list contents. -/
def capacityCheckLen : Nat → List Nat → Bool
  | _, [] => true
  | total, n :: rest =>
    let t := total * max 1 n
    if t > 5000 then false else capacityCheckLen t rest

/-- `itertools.product(*ordered_lists)`: all combinations picking one element
per list, the first list varying slowest. -/
def cartesianProduct : List (List String) → List (List String)
  | [] => [[]]
  | l :: ls => l.flatMap fun x => (cartesianProduct ls).map fun combo => x :: combo

/-- The message of the `RuntimeError` raised by the capacity guard. -/
def capacityMsg : String := "Selection expands to >5000 series keys. Narrow your filters."

/-- `build_series_keys_from_selection(flow_id, dim_ids, selected)`: wildcard
substitution, capacity guard, then the dot-joined cartesian product.  The
guard raising is modelled as `Except.error`. -/
def build_series_keys_from_selection (flow_id : String) (dim_ids : List String)
    (selected : String → Option (List String)) : Except String (List String) :=
  let ordered_lists := wildcardLists dim_ids selected
  if capacityCheck 1 ordered_lists then
    Except.ok ((cartesianProduct ordered_lists).map (String.intercalate "."))
  else
    Except.error capacityMsg

/-- `max(1, |S[d]|)` with a missing entry read as the empty list, and the
product of these over the dimension list — the size the spec predicts. -/
def selProd (dim_ids : List String) (selected : String → Option (List String)) : Nat :=
  (dim_ids.map fun d => max 1 ((selected d).getD []).length).prod

/-- The per-list capacity factors `max(1, len(lst))` and their product. -/
def prodFactors (ls : List (List String)) : Nat :=
  (ls.map fun l => max 1 l.length).prod

/-- Whether an `Except` is an error. -/
def isErr {ε α : Type} : Except ε α → Bool
  | .error _ => true
  | .ok _ => false

/-! ### Lemmas about the key builder -/

theorem prodFactors_pos (ls : List (List String)) : 0 < prodFactors ls := by
  induction ls with
  | nil => simp [prodFactors]
  | cons l rest ih =>
    simp only [prodFactors, List.map_cons, List.prod_cons]
    exact Nat.mul_pos (Nat.lt_of_lt_of_le Nat.zero_lt_one (Nat.le_max_left 1 _)) ih

theorem capacityCheck_eq_len (total : Nat) (ls : List (List String)) :
    capacityCheck total ls = capacityCheckLen total (ls.map List.length) := by
  induction ls generalizing total with
  | nil => rfl
  | cons l rest ih =>
    simp only [capacityCheck, capacityCheckLen, List.map_cons]
    split
    · rfl
    · exact ih _

theorem capacityCheck_false_iff (ls : List (List String)) (total : Nat)
    (h : total ≤ 5000) :
    capacityCheck total ls = false ↔ 5000 < total * prodFactors ls := by
  induction ls generalizing total with
  | nil =>
    simp only [capacityCheck, prodFactors, List.map_nil, List.prod_nil, Nat.mul_one]
    constructor
    · intro hc; exact absurd hc (by simp)
    · intro hlt; exact absurd h (Nat.not_le_of_lt hlt)
  | cons l rest ih =>
    simp only [capacityCheck]
    by_cases hc : 5000 < total * max 1 l.length
    · simp only [if_pos hc]
      constructor
      · intro _
        have hP : 0 < prodFactors rest := prodFactors_pos rest
        have : total * max 1 l.length ≤ total * max 1 l.length * prodFactors rest :=
          Nat.le_mul_of_pos_right _ hP
        have : 5000 < total * max 1 l.length * prodFactors rest :=
          Nat.lt_of_lt_of_le hc this
        simpa [prodFactors, Nat.mul_assoc] using this
      · intro _; trivial
    · simp only [if_neg hc]
      have hle : total * max 1 l.length ≤ 5000 := Nat.le_of_not_lt hc
      have := ih (total * max 1 l.length) hle
      rw [this]
      simp [prodFactors, Nat.mul_assoc]

theorem length_cartesianProduct (ls : List (List String)) :
    (cartesianProduct ls).length = (ls.map List.length).prod := by
  induction ls with
  | nil => rfl
  | cons l rest ih =>
    simp only [cartesianProduct, List.length_flatMap, List.map_map, List.map_cons,
      List.prod_cons]
    have : (fun x => ((cartesianProduct rest).map fun combo => x :: combo).length) ∘ id
        = fun _ : String => (cartesianProduct rest).length := by
      funext x; simp
    simp only [Function.comp_def, List.length_map, ih]
    induction l with
    | nil => simp
    | cons x xs ihx =>
      simp only [List.map_cons, List.sum_cons, List.length_cons, ihx]
      ring

/-- Each substituted per-dimension list is non-empty, so its length equals
`max 1 length` and matches the spec's `max(1, |S[d]|)` factor. -/
theorem wildcardLists_length_eq (dim_ids : List String)
    (selected : String → Option (List String)) :
    (wildcardLists dim_ids selected).map List.length
      = dim_ids.map fun d => max 1 ((selected d).getD []).length := by
  simp only [wildcardLists, List.map_map]
  apply List.map_congr_left
  intro d _
  simp only [Function.comp_def]
  match hd : selected d with
  | none => simp [hd]
  | some l =>
    cases l with
    | nil => simp [hd]
    | cons c cs => simp [hd, Nat.max_eq_right (Nat.succ_le_succ (Nat.zero_le _))]

theorem prodFactors_eq_selProd (dim_ids : List String)
    (selected : String → Option (List String)) :
    prodFactors (wildcardLists dim_ids selected) = selProd dim_ids selected := by
  have hmem : ∀ l ∈ wildcardLists dim_ids selected, max 1 l.length = l.length := by
    intro l hl
    simp only [wildcardLists, List.mem_map] at hl
    obtain ⟨d, _, hd⟩ := hl
    subst hd
    match selected d with
    | none => rfl
    | some l' =>
      cases l' with
      | nil => rfl
      | cons c cs => simp [Nat.max_eq_right (Nat.succ_le_succ (Nat.zero_le _))]
  unfold prodFactors selProd
  rw [← wildcardLists_length_eq]
  exact congrArg List.prod (List.map_congr_left hmem)

theorem prod_lengths_eq_prodFactors (dim_ids : List String)
    (selected : String → Option (List String)) :
    ((wildcardLists dim_ids selected).map List.length).prod
      = prodFactors (wildcardLists dim_ids selected) := by
  unfold prodFactors
  congr 1
  apply List.map_congr_left
  intro l hl
  simp only [wildcardLists, List.mem_map] at hl
  obtain ⟨d, _, hd⟩ := hl
  subst hd
  match selected d with
  | none => rfl
  | some l' =>
    cases l' with
    | nil => rfl
    | cons c cs => simp [Nat.max_eq_right (Nat.succ_le_succ (Nat.zero_le _))]

theorem build_cases (fid : String) (dims : List String)
    (sel : String → Option (List String)) :
    (capacityCheck 1 (wildcardLists dims sel) = true ∧
      build_series_keys_from_selection fid dims sel
        = Except.ok ((cartesianProduct (wildcardLists dims sel)).map (String.intercalate ".")))
    ∨ (capacityCheck 1 (wildcardLists dims sel) = false ∧
      build_series_keys_from_selection fid dims sel = Except.error capacityMsg) := by
  unfold build_series_keys_from_selection
  cases h : capacityCheck 1 (wildcardLists dims sel) with
  | true => exact Or.inl ⟨rfl, by simp [h]⟩
  | false => exact Or.inr ⟨rfl, by simp [h]⟩

theorem capacityCheck_one_false_iff (dims : List String)
    (sel : String → Option (List String)) :
    capacityCheck 1 (wildcardLists dims sel) = false ↔ 5000 < selProd dims sel := by
  rw [capacityCheck_false_iff _ 1 (by norm_num), Nat.one_mul, prodFactors_eq_selProd]

theorem build_ok_length (fid : String) (dims : List String)
    (sel : String → Option (List String)) (keys : List String)
    (h : build_series_keys_from_selection fid dims sel = Except.ok keys) :
    keys.length = selProd dims sel := by
  rcases build_cases fid dims sel with ⟨_, hok⟩ | ⟨_, herr⟩
  · rw [h] at hok
    have hk := (Except.ok.injEq _ _).mp hok.symm
    rw [← hk, List.length_map, length_cartesianProduct,
      prod_lengths_eq_prodFactors, prodFactors_eq_selProd]
  · rw [h] at herr; exact absurd herr (by simp)

theorem prodFactors_append (a b : List (List String)) :
    prodFactors (a ++ b) = prodFactors a * prodFactors b := by
  simp [prodFactors, List.map_append, List.prod_append]

theorem prodFactors_take_le (ls : List (List String)) (k : Nat) :
    prodFactors (ls.take k) ≤ prodFactors ls := by
  conv_rhs => rw [← List.take_append_drop k ls]
  rw [prodFactors_append]
  exact Nat.le_mul_of_pos_right _ (prodFactors_pos _)

/-- The keys on which the fetch stage runs after the key builder: when the
builder raises the capacity error, the UI leaves `series_keys` empty and
`fetch_many` is therefore handed nothing to fetch. -/
def attemptedFetches (flow_id : String) (dim_ids : List String)
    (selected : String → Option (List String)) : List String :=
  match build_series_keys_from_selection flow_id dim_ids selected with
  | .error _ => []
  | .ok keys => keys

/-- Three dimensions for the 20×20×20 capacity example. -/
def dims3 : List String := ["D1", "D2", "D3"]

/-- Twenty candidate codes for each dimension of the capacity example. -/
def codes20 : List String := (List.range 20).map fun n => "c" ++ toString n

/-- A selection assigning all twenty codes to every dimension. -/
def sel20 : String → Option (List String) := fun _ => some codes20

/-! ## Claim theorems about the key builder -/

/-- C1: for every ordered dimension-id list and every selection (missing or
empty entry = wildcard), the returned key list has length equal to the
product over the dimensions of `max(1, |S[d]|)`, and the call raises the
capacity error if and only if that product exceeds 5000. -/
theorem keyBuilder_size_and_capacity (fid : String) (dims : List String)
    (sel : String → Option (List String)) :
    (∀ keys, build_series_keys_from_selection fid dims sel = Except.ok keys →
      keys.length = selProd dims sel)
    ∧ (isErr (build_series_keys_from_selection fid dims sel) = true ↔
        5000 < selProd dims sel) := by
  constructor
  · intro keys h; exact build_ok_length fid dims sel keys h
  · rcases build_cases fid dims sel with ⟨hchk, hok⟩ | ⟨hchk, herr⟩
    · rw [hok]
      simp only [isErr, Bool.false_eq_true, false_iff]
      intro hlt
      have := (capacityCheck_one_false_iff dims sel).mpr hlt
      rw [hchk] at this
      exact absurd this (by simp)
    · rw [herr]
      simp only [isErr, true_iff]
      exact (capacityCheck_one_false_iff dims sel).mp hchk

/-- Witness for C1 at the spec's worked example: dimensions
`[FREQ, CURRENCY]`, `FREQ` selected `{D}`, `CURRENCY` unselected, produce
the single key `"D."`, matching the predicted product `1 * 1`. -/
theorem keyBuilder_size_and_capacity_witness :
    (["D."] : List String).length
      = selProd ["FREQ", "CURRENCY"]
          (fun d => if d = "FREQ" then some ["D"] else none) :=
  (keyBuilder_size_and_capacity "EXR" ["FREQ", "CURRENCY"]
    (fun d => if d = "FREQ" then some ["D"] else none)).1 ["D."] rfl

/-- C3: the capacity guard is a running product over the per-dimension list
lengths alone (so no key combination is materialized), it trips exactly when
some prefix's running product exceeds 5000, tripping yields the capacity
error with no keys handed to the fetch stage, and the 20×20×20 example
raises the error with zero fetches attempted. -/
theorem capacity_guard_short_circuits :
    (∀ total ls, capacityCheck total ls = capacityCheckLen total (ls.map List.length))
    ∧ (∀ ls : List (List String), capacityCheck 1 ls = false ↔
        ∃ k, k ≤ ls.length ∧ 5000 < prodFactors (ls.take k))
    ∧ (∀ fid dims sel, capacityCheck 1 (wildcardLists dims sel) = false →
        build_series_keys_from_selection fid dims sel = Except.error capacityMsg
        ∧ attemptedFetches fid dims sel = [])
    ∧ (build_series_keys_from_selection "EXR" dims3 sel20 = Except.error capacityMsg
        ∧ attemptedFetches "EXR" dims3 sel20 = []) := by
  refine ⟨capacityCheck_eq_len, ?_, ?_, ?_⟩
  · intro ls
    rw [capacityCheck_false_iff _ 1 (by norm_num), Nat.one_mul]
    constructor
    · intro h
      exact ⟨ls.length, Nat.le_refl _, by rwa [List.take_length]⟩
    · rintro ⟨k, _, hk⟩
      exact Nat.lt_of_lt_of_le hk (prodFactors_take_le ls k)
  · intro fid dims sel hchk
    have herr : build_series_keys_from_selection fid dims sel = Except.error capacityMsg := by
      rcases build_cases fid dims sel with ⟨htrue, _⟩ | ⟨_, herr⟩
      · rw [hchk] at htrue; exact absurd htrue (by simp)
      · exact herr
    refine ⟨herr, ?_⟩
    unfold attemptedFetches
    rw [herr]
  · exact ⟨rfl, rfl⟩

/-- Witness for C3: the short-circuit branch applied at a concrete
over-capacity selection (three dimensions of twenty codes each). -/
theorem capacity_guard_short_circuits_witness :
    build_series_keys_from_selection "F" dims3 sel20 = Except.error capacityMsg :=
  (capacity_guard_short_circuits.2.2.1 "F" dims3 sel20 (by decide)).1

/-- C9: called with an empty dimension-id list, the key builder returns the
one-element list containing the empty string — the empty cartesian product
has exactly one (empty) combination — and that key has zero dots. -/
theorem keyBuilder_empty_dims (fid : String) (sel : String → Option (List String)) :
    build_series_keys_from_selection fid [] sel = Except.ok [""]
    ∧ ("".data.count '.') = 0 :=
  ⟨rfl, rfl⟩

/-- C10: the produced keys do not depend on the `flow_id` argument — the
result is a function of the dimension order and the selection alone. -/
theorem keyBuilder_flow_id_independent (fid₁ fid₂ : String) (dims : List String)
    (sel : String → Option (List String)) :
    build_series_keys_from_selection fid₁ dims sel
      = build_series_keys_from_selection fid₂ dims sel := rfl

/-! ## Dot-separated segments of a produced key (C2) -/

/-- The number of dot-separated segments of a string: one more than the
number of `'.'` characters, which is exactly `(s.splitOn ".").length`. -/
def dotSegCount (s : String) : Nat := s.data.count '.' + 1

theorem intercalate_go_count (sep : String) (ch : Char) (l : List String) :
    ∀ acc : String, (String.intercalate.go acc sep l).data.count ch
      = acc.data.count ch
        + ((l.map fun p => p.data.count ch).sum + l.length * (sep.data.count ch)) := by
  induction l with
  | nil => intro acc; simp [String.intercalate.go]
  | cons a as ih =>
    intro acc
    rw [String.intercalate.go, ih]
    simp only [String.data_append, List.count_append, List.map_cons, List.sum_cons,
      List.length_cons]
    ring

theorem intercalate_count (sep : String) (ch : Char) :
    ∀ parts : List String, parts ≠ [] →
      (String.intercalate sep parts).data.count ch
        = (parts.map fun p => p.data.count ch).sum
          + (parts.length - 1) * (sep.data.count ch)
  | [], h => absurd rfl h
  | a :: as, _ => by
    rw [String.intercalate, intercalate_go_count]
    simp only [List.map_cons, List.sum_cons, List.length_cons, Nat.add_sub_cancel]
    ring

theorem mem_cartesianProduct_length (ls : List (List String)) (combo : List String)
    (h : combo ∈ cartesianProduct ls) : combo.length = ls.length := by
  induction ls generalizing combo with
  | nil =>
    simp only [cartesianProduct, List.mem_singleton] at h
    subst h; rfl
  | cons l rest ih =>
    simp only [cartesianProduct, List.mem_flatMap, List.mem_map] at h
    obtain ⟨x, _, c, hc, hxc⟩ := h
    subst hxc
    simp [ih c hc]

theorem mem_cartesianProduct_elem (ls : List (List String)) (combo : List String)
    (h : combo ∈ cartesianProduct ls) : ∀ x ∈ combo, ∃ l ∈ ls, x ∈ l := by
  induction ls generalizing combo with
  | nil =>
    simp only [cartesianProduct, List.mem_singleton] at h
    subst h; intro x hx; exact absurd hx (List.not_mem_nil x)
  | cons l rest ih =>
    simp only [cartesianProduct, List.mem_flatMap, List.mem_map] at h
    obtain ⟨y, hy, c, hc, hyc⟩ := h
    subst hyc
    intro x hx
    rcases List.mem_cons.mp hx with hx | hx
    · subst hx; exact ⟨l, List.mem_cons_self l rest, hy⟩
    · obtain ⟨l', hl', hxl'⟩ := ih c hc x hx
      exact ⟨l', List.mem_cons_of_mem l hl', hxl'⟩

/-- A selection whose single chosen code itself contains a dot. -/
def dottedSel : String → Option (List String) :=
  fun d => if d = "A" then some ["x.y"] else none

/-- C2 counterexample: over the one-dimension order `["A"]` with the chosen
code `"x.y"`, the key builder returns the key `"x.y"`, which has two
dot-separated segments, not `|D| = 1`. -/
theorem key_segments_cex :
    build_series_keys_from_selection "EXR" ["A"] dottedSel = Except.ok ["x.y"]
    ∧ dotSegCount "x.y" = 2
    ∧ ("x.y".data.splitOn '.').length = 2
    ∧ (2 : Nat) ≠ 1 :=
  ⟨rfl, by decide, by decide, by decide⟩

/-- C2 (amended): provided no chosen code contains a `'.'` character, every
key produced by the key builder for a non-empty ordered dimension-id list
has exactly `|D|` dot-separated segments (an empty segment standing for a
wildcard position), in the dataset's canonical dimension order. -/
theorem key_segment_count (fid : String) (dims : List String)
    (sel : String → Option (List String)) (keys : List String)
    (hne : dims ≠ [])
    (hdot : ∀ d l, sel d = some l → ∀ c ∈ l, '.' ∉ c.data)
    (hok : build_series_keys_from_selection fid dims sel = Except.ok keys) :
    ∀ k ∈ keys, dotSegCount k = dims.length := by
  have hkeys : keys = (cartesianProduct (wildcardLists dims sel)).map (String.intercalate ".") := by
    rcases build_cases fid dims sel with ⟨_, hok'⟩ | ⟨_, herr⟩
    · rw [hok] at hok'; exact (Except.ok.injEq _ _).mp hok'
    · rw [hok] at herr; exact absurd herr (by simp)
  subst hkeys
  intro k hk
  obtain ⟨combo, hcombo, hjoin⟩ := List.mem_map.mp hk
  subst hjoin
  have hlen : combo.length = dims.length := by
    rw [mem_cartesianProduct_length _ combo hcombo]
    simp [wildcardLists]
  have hcne : combo ≠ [] := by
    intro hnil
    rw [hnil] at hlen
    exact hne (List.eq_nil_of_length_eq_zero hlen.symm)
  have hzero : ∀ x ∈ combo, x.data.count '.' = 0 := by
    intro x hx
    obtain ⟨l, hl, hxl⟩ := mem_cartesianProduct_elem _ combo hcombo x hx
    simp only [wildcardLists, List.mem_map] at hl
    obtain ⟨d, _, hd⟩ := hl
    have hnot : '.' ∉ x.data := by
      subst hd
      cases hsel : sel d with
      | none =>
        simp only [hsel, List.mem_singleton] at hxl
        subst hxl; simp
      | some l' =>
        by_cases hemp : l'.isEmpty
        · simp only [hsel, if_pos hemp, List.mem_singleton] at hxl
          subst hxl; simp
        · simp only [hsel, if_neg hemp] at hxl
          exact hdot d l' hsel x hxl
    exact List.count_eq_zero.mpr hnot
  unfold dotSegCount
  rw [intercalate_count "." '.' combo hcne]
  have hsum : (combo.map fun p => p.data.count '.').sum = 0 := by
    apply List.sum_eq_zero
    intro n hn
    obtain ⟨x, hx, hxn⟩ := List.mem_map.mp hn
    rw [← hxn]
    exact hzero x hx
  rw [hsum]
  have hsep : (".".data.count '.') = 1 := by decide
  rw [hsep, Nat.mul_one, Nat.zero_add, ← hlen]
  have : 1 ≤ combo.length := Nat.one_le_iff_ne_zero.mpr (by
    intro h0; exact hcne (List.eq_nil_of_length_eq_zero h0))
  omega

/-- Witness for the amended C2: two dimensions with the dot-free code `"D"`
chosen for both produce the key `"D.D"` with exactly two segments. -/
theorem key_segment_count_witness : dotSegCount "D.D" = 2 := by
  have h := key_segment_count "EXR" ["FREQ", "CURRENCY"]
    (fun _ => some ["D"]) ["D.D"]
    (by decide)
    (by
      intro d l hdl c hc
      cases hdl
      simp only [List.mem_singleton] at hc
      subst hc; decide)
    rfl
  simpa using h "D.D" (by simp)

/-! ## Per-key fetch (`fetch_series_csv`, src/app_ecb.py lines 196–213) -/

/-- A parsed CSV response as handed back by `pd.read_csv`: the named columns
in order, each with its cell values; a `none` cell models a missing (NaN)
value.  The HTTP transport and CSV parsing themselves are library calls and
enter the embedding as this already-parsed value. -/
structure CsvFrame where
  cols : List (String × List (Option String))

/-- `c in df.columns`. -/
def CsvFrame.hasCol (df : CsvFrame) (c : String) : Bool :=
  df.cols.any fun p => p.1 == c

/-- `df[c]`: the values of column `c`, or `[]` if the column is absent. -/
def CsvFrame.colVals (df : CsvFrame) (c : String) : List (Option String) :=
  match df.cols.find? (fun p => p.1 == c) with
  | some p => p.2
  | none => []

/-- The prioritized descriptive metadata fields scanned for the label. -/
def labelFields : List String :=
  ["TITLE_COMPL", "TITLE", "UNIT", "CURRENCY", "CURRENCY_DENOM", "EXR_TYPE", "EXR_SUFFIX"]

/-- `c in df.columns and pd.notna(df[c]).any()`: the column is present and
holds some non-null value. -/
def labelHit (df : CsvFrame) (c : String) : Bool :=
  df.hasCol c && (df.colVals c).any Option.isSome

/-- `str(df[c].dropna().iloc[0])`: the first non-null value of column `c`. -/
def firstNonNull (df : CsvFrame) (c : String) : String :=
  ((df.colVals c).filterMap id).headD ""

/-- The label loop: start from `f"{flow_id}:{series_key}"`, then the first
field of `labelFields` present with a non-null value appends ` — ` and its
first non-null value; the scan breaks at the first match. -/
def composeLabel (flow_id series_key : String) (df : CsvFrame) : String :=
  let base := flow_id ++ ":" ++ series_key
  match labelFields.find? (labelHit df) with
  | some c => base ++ " — " ++ firstNonNull df c
  | none => base

/-- One fetched series: the single data column `fetch_series_csv` returns,
as its display label plus its `(Date, OBS_VALUE)` rows. -/
structure OneSeries where
  label : String
  rows : List (Option Int × Option String)
  deriving DecidableEq

/-- The time index of one fetched series. -/
def OneSeries.dates (s : OneSeries) : List (Option Int) := s.rows.map Prod.fst

/-- Row comparison for `sort_values("Date")`: ascending by parsed date,
unparsable dates (`none`, pandas `NaT`) placed last. -/
def dateLe (a b : Option Int × Option String) : Bool :=
  match a.1, b.1 with
  | some x, some y => x ≤ y
  | some _, none => true
  | none, some _ => false
  | none, none => true

def insertByDate (x : Option Int × Option String) :
    List (Option Int × Option String) → List (Option Int × Option String)
  | [] => [x]
  | y :: ys => if dateLe x y then x :: y :: ys else y :: insertByDate x ys

/-- `df.sort_values("Date")` on the two retained columns. -/
def sortByDate : List (Option Int × Option String) → List (Option Int × Option String)
  | [] => []
  | x :: xs => insertByDate x (sortByDate xs)

/-- `fetch_series_csv(flow_id, series_key)` applied to the parsed CSV
response `df`: require the `TIME_PERIOD` and `OBS_VALUE` columns (raising
the format error otherwise, modelled as `Except.error`), parse the time
periods with the supplied date parser (`pd.to_datetime(..., errors="coerce")`,
`none` = NaT), sort ascending, and attach the composed label. -/
def fetch_series_csv (parseDate : String → Option Int) (flow_id series_key : String)
    (df : CsvFrame) : Except String OneSeries :=
  if !df.hasCol "TIME_PERIOD" || !df.hasCol "OBS_VALUE" then
    Except.error "Unexpected CSV from ECB."
  else
    let dates := (df.colVals "TIME_PERIOD").map fun v => v.bind parseDate
    Except.ok ⟨composeLabel flow_id series_key df,
      sortByDate (dates.zip (df.colVals "OBS_VALUE"))⟩

/-! ## Batch fetch and merge (`fetch_many`, src/app_ecb.py lines 215–227) -/

/-- The wide table `fetch_many` produces: its time index and its ordered
column labels (one column per successfully fetched series). -/
structure WideTable where
  index : List (Option Int)
  colLabels : List String
  deriving DecidableEq

/-- `st.warning(f"Failed to fetch {flow_id}/{k}: {e}")`: the per-key
warning text, identifying the failing dataset/key pair. -/
def mkWarn (flow_id k e : String) : String :=
  "Failed to fetch " ++ flow_id ++ "/" ++ k ++ ": " ++ e

/-- The fetch loop: each key is fetched independently through the oracle;
a success appends its frame, a failure appends a warning, and the loop
always continues to the next key. -/
def collectFrames (oracle : String → Except String OneSeries) (flow_id : String) :
    List String → List OneSeries × List String
  | [] => ([], [])
  | k :: ks =>
    let rest := collectFrames oracle flow_id ks
    match oracle k with
    | .ok f => (f :: rest.1, rest.2)
    | .error e => (rest.1, mkWarn flow_id k e :: rest.2)

/-- The index of `pd.concat(frames, axis=1)`: the outer union of the
single-series time indices (modelled as the concatenation de-duplicated;
only its membership is observed). -/
def mergeIndex (idxs : List (List (Option Int))) : List (Option Int) :=
  idxs.flatten.dedup

/-- `fetch_many(flow_id, series_keys)`: fetch every key through the oracle,
warn on failures, return the empty wide table if no frame survived, else
concatenate the frames column-wise over the union of their indices. -/
def fetch_many (oracle : String → Except String OneSeries) (flow_id : String)
    (series_keys : List String) : WideTable × List String :=
  let fw := collectFrames oracle flow_id series_keys
  if fw.1.isEmpty then (⟨[], []⟩, fw.2)
  else (⟨mergeIndex (fw.1.map OneSeries.dates), fw.1.map OneSeries.label⟩, fw.2)

/-- The number of keys whose fetch fails. -/
def failCount (oracle : String → Except String OneSeries) (keys : List String) : Nat :=
  (keys.filter fun k => isErr (oracle k)).length

/-- De-duplication preserving first occurrence, following the spec's words
("after de-duplication preserving first occurrence", Python
`dict.fromkeys`); `fetch_many` itself performs no such step, which is what
the C4 counterexample exhibits. -/
def dedupFirstOccurrence (l : List String) : List String :=
  l.foldl (fun acc x => if x ∈ acc then acc else acc ++ [x]) []

/-! ### Lemmas about the merge loop -/

theorem collectFrames_frames (oracle : String → Except String OneSeries)
    (fid : String) (keys : List String) :
    (collectFrames oracle fid keys).1 = keys.filterMap fun k => (oracle k).toOption := by
  induction keys with
  | nil => rfl
  | cons k ks ih =>
    simp only [collectFrames]
    cases h : oracle k with
    | ok f => simp [h, Except.toOption, ih]
    | error e => simp [h, Except.toOption, ih]

theorem collectFrames_warns (oracle : String → Except String OneSeries)
    (fid : String) (keys : List String) :
    (collectFrames oracle fid keys).2 = keys.filterMap fun k =>
      match oracle k with
      | .error e => some (mkWarn fid k e)
      | .ok _ => none := by
  induction keys with
  | nil => rfl
  | cons k ks ih =>
    simp only [collectFrames]
    cases h : oracle k with
    | ok f => simp [h, ih]
    | error e => simp [h, ih]

theorem collectFrames_warns_length (oracle : String → Except String OneSeries)
    (fid : String) (keys : List String) :
    (collectFrames oracle fid keys).2.length = failCount oracle keys := by
  induction keys with
  | nil => rfl
  | cons k ks ih =>
    simp only [collectFrames, failCount, List.filter_cons]
    cases h : oracle k with
    | ok f => simp [h, isErr, ih, failCount]
    | error e => simp [h, isErr, ih, failCount]

theorem collectFrames_total (oracle : String → Except String OneSeries)
    (fid : String) (keys : List String) :
    (collectFrames oracle fid keys).1.length + (collectFrames oracle fid keys).2.length
      = keys.length := by
  induction keys with
  | nil => rfl
  | cons k ks ih =>
    simp only [collectFrames]
    cases h : oracle k with
    | ok f => simp only [h, List.length_cons]; omega
    | error e => simp only [h, List.length_cons]; omega

theorem fetch_many_warns (oracle : String → Except String OneSeries)
    (fid : String) (keys : List String) :
    (fetch_many oracle fid keys).2 = keys.filterMap fun k =>
      match oracle k with
      | .error e => some (mkWarn fid k e)
      | .ok _ => none := by
  unfold fetch_many
  by_cases h : (collectFrames oracle fid keys).1.isEmpty
    <;> simp [h, collectFrames_warns]

theorem fetch_many_cols (oracle : String → Except String OneSeries)
    (fid : String) (keys : List String) :
    (fetch_many oracle fid keys).1.colLabels
      = keys.filterMap fun k => ((oracle k).toOption).map OneSeries.label := by
  unfold fetch_many
  by_cases h : (collectFrames oracle fid keys).1.isEmpty
  · rw [List.isEmpty_iff] at h
    simp only [h, List.isEmpty_nil, if_true]
    rw [← List.map_filterMap, ← collectFrames_frames oracle fid keys, h]
    rfl
  · simp only [h]
    rw [if_neg (by simp [h])]
    rw [← List.map_filterMap, ← collectFrames_frames oracle fid keys]

theorem except_toOption_eq_some {ε α : Type} (x : Except ε α) (a : α) :
    x.toOption = some a ↔ x = Except.ok a := by
  cases x <;> simp [Except.toOption]

/-! ## Claim theorems about the merge layer -/

/-- An oracle on which every key succeeds, labelling key `k` as `"L" ++ k`. -/
def dupOracle : String → Except String OneSeries := fun k => Except.ok ⟨"L" ++ k, []⟩

/-- C4 counterexample: on the duplicate input `["a", "a"]` with both fetches
succeeding, `fetch_many` returns two columns in plain input order, whereas
the claim's de-duplicated input order would have a single column — the code
performs no de-duplication. -/
theorem merge_order_cex :
    (fetch_many dupOracle "F" ["a", "a"]).1.colLabels = ["La", "La"]
    ∧ (dedupFirstOccurrence ["a", "a"]).filterMap
        (fun k => ((dupOracle k).toOption).map OneSeries.label) = ["La"]
    ∧ (["La", "La"] : List String) ≠ ["La"] :=
  ⟨rfl, rfl, by decide⟩

/-- C4 (amended): for every list of N requested series keys of which K
fetches fail (K < N), `fetch_many` returns a wide table with exactly K
per-key warnings and N−K columns, and the column order equals the plain
input key order restricted to the successful keys — `fetch_many` performs
no de-duplication, so duplicate input keys yield duplicate columns; the
order is in particular not alphabetical or time-of-arrival order. -/
theorem merge_counts_and_order (oracle : String → Except String OneSeries)
    (fid : String) (keys : List String)
    (hKN : failCount oracle keys < keys.length) :
    (fetch_many oracle fid keys).2.length = failCount oracle keys
    ∧ (fetch_many oracle fid keys).1.colLabels
        = keys.filterMap (fun k => ((oracle k).toOption).map OneSeries.label)
    ∧ (fetch_many oracle fid keys).1.colLabels.length
        = keys.length - failCount oracle keys := by
  have hw : (fetch_many oracle fid keys).2 = (collectFrames oracle fid keys).2 := by
    unfold fetch_many
    by_cases h : (collectFrames oracle fid keys).1.isEmpty <;> simp [h]
  refine ⟨?_, fetch_many_cols oracle fid keys, ?_⟩
  · rw [hw, collectFrames_warns_length]
  · rw [fetch_many_cols, ← List.map_filterMap, List.length_map,
      ← collectFrames_frames oracle fid keys]
    have htot := collectFrames_total oracle fid keys
    have hwl := collectFrames_warns_length oracle fid keys
    omega

/-- A concrete oracle for the C4 witness: `"bad"` fails, all else succeeds. -/
def mixedOracle : String → Except String OneSeries := fun k =>
  if k = "bad" then Except.error "boom" else Except.ok ⟨"ok:" ++ k, [(some 0, some "1")]⟩

/-- Witness for the amended C4: two keys, one failure — one warning. -/
theorem merge_counts_and_order_witness :
    (fetch_many mixedOracle "F" ["g", "bad"]).2.length
      = failCount mixedOracle ["g", "bad"] :=
  (merge_counts_and_order mixedOracle "F" ["g", "bad"] (by decide)).1

/-- C5: every failing key is caught and reported as a warning naming the
dataset/key pair while the batch continues; the warnings are exactly the
failures in order; the columns are the successful fetches in order (failing
keys omitted); the merged index is the union of the successful series' time
indices; and if zero keys succeed the result is the empty wide table, not
an error. -/
theorem merge_partial_failure (oracle : String → Except String OneSeries)
    (fid : String) (keys : List String) :
    (fetch_many oracle fid keys).2 = keys.filterMap (fun k =>
        match oracle k with
        | .error e => some (mkWarn fid k e)
        | .ok _ => none)
    ∧ (∀ k e, k ∈ keys → oracle k = Except.error e →
        mkWarn fid k e ∈ (fetch_many oracle fid keys).2)
    ∧ (fetch_many oracle fid keys).1.colLabels
        = keys.filterMap (fun k => ((oracle k).toOption).map OneSeries.label)
    ∧ (∀ d, d ∈ (fetch_many oracle fid keys).1.index ↔
        ∃ k, k ∈ keys ∧ ∃ f, oracle k = Except.ok f ∧ d ∈ f.dates)
    ∧ ((∀ k ∈ keys, isErr (oracle k) = true) →
        (fetch_many oracle fid keys).1 = ⟨[], []⟩) := by
  refine ⟨fetch_many_warns oracle fid keys, ?_, fetch_many_cols oracle fid keys, ?_, ?_⟩
  · intro k e hk he
    rw [fetch_many_warns]
    exact List.mem_filterMap.mpr ⟨k, hk, by rw [he]⟩
  · intro d
    unfold fetch_many
    by_cases h : (collectFrames oracle fid keys).1.isEmpty
    · rw [List.isEmpty_iff] at h
      simp only [h, List.isEmpty_nil, if_true]
      constructor
      · intro hd; exact absurd hd (List.not_mem_nil d)
      · rintro ⟨k, hk, f, hf, _⟩
        have : (oracle k).toOption = some f := (except_toOption_eq_some _ _).mpr hf
        have hmem : f ∈ (collectFrames oracle fid keys).1 := by
          rw [collectFrames_frames]
          exact List.mem_filterMap.mpr ⟨k, hk, this⟩
        rw [h] at hmem
        exact absurd hmem (List.not_mem_nil f)
    · rw [if_neg (by simp [h])]
      show d ∈ mergeIndex _ ↔ _
      unfold mergeIndex
      rw [List.mem_dedup, List.mem_flatten]
      constructor
      · rintro ⟨lst, hlst, hd⟩
        obtain ⟨f, hf, hfd⟩ := List.mem_map.mp hlst
        have := List.mem_filterMap.mp
          ((collectFrames_frames oracle fid keys) ▸ hf)
        obtain ⟨k, hk, hok⟩ := this
        exact ⟨k, hk, f, (except_toOption_eq_some _ _).mp hok, hfd ▸ hd⟩
      · rintro ⟨k, hk, f, hok, hd⟩
        have hmem : f ∈ (collectFrames oracle fid keys).1 := by
          rw [collectFrames_frames]
          exact List.mem_filterMap.mpr ⟨k, hk, (except_toOption_eq_some _ _).mpr hok⟩
        exact ⟨f.dates, List.mem_map_of_mem OneSeries.dates hmem, hd⟩
  · intro hall
    have hnil : (collectFrames oracle fid keys).1 = [] := by
      rw [collectFrames_frames]
      apply List.filterMap_eq_nil_iff.mpr
      intro k hk
      have := hall k hk
      cases h : oracle k with
      | ok f => rw [h] at this; exact absurd this (by simp [isErr])
      | error e => simp [h, Except.toOption]
    unfold fetch_many
    simp [hnil]

/-- An oracle on which every fetch fails. -/
def allFailOracle : String → Except String OneSeries := fun _ => Except.error "down"

/-- Witness for C5: with every fetch failing, the result is the empty wide
table. -/
theorem merge_partial_failure_witness :
    (fetch_many allFailOracle "F" ["x", "y"]).1 = (⟨[], []⟩ : WideTable) :=
  (merge_partial_failure allFailOracle "F" ["x", "y"]).2.2.2.2 (by decide)

/-! ## Claim theorems about the per-key fetch -/

theorem find?_of_first {p : String → Bool} (pre : List String) (c : String)
    (suf : List String) (hpre : ∀ x ∈ pre, p x = false) (hc : p c = true) :
    (pre ++ c :: suf).find? p = some c := by
  induction pre with
  | nil => exact List.find?_cons_of_pos suf hc
  | cons a pre ih =>
    have ha : p a = false := hpre a (List.mem_cons_self _ _)
    rw [List.cons_append, List.find?_cons_of_neg _ (by simp [ha])]
    exact ih fun x hx => hpre x (List.mem_cons_of_mem _ hx)

theorem fetch_ok_label (pd : String → Option Int) (fid key : String)
    (df : CsvFrame) (s : OneSeries)
    (h : fetch_series_csv pd fid key df = Except.ok s) :
    s.label = composeLabel fid key df := by
  unfold fetch_series_csv at h
  by_cases hc : (!df.hasCol "TIME_PERIOD" || !df.hasCol "OBS_VALUE") = true
  · rw [if_pos hc] at h
    exact absurd h (by simp)
  · rw [if_neg hc] at h
    have := (Except.ok.injEq _ _).mp h
    rw [← this]

/-- The claim's example response: a time-period column, an observed-value
column, and a `TITLE` column holding `"US dollar"`. -/
def exFrame : CsvFrame :=
  ⟨[("TIME_PERIOD", [some "2024-01-02"]),
    ("OBS_VALUE", [some "1.0943"]),
    ("TITLE", [some "US dollar"])]⟩

/-- A date parser for the example (its output is not observed by the label). -/
def exParse : String → Option Int := fun _ => some 0

/-- C7: the display label concatenates the dataset identifier and the series
key with the first field of the prioritized list that carries a non-null
value, stopping at the first match (and stays bare when none matches); in
particular the `EXR.D.USD.EUR.SP00.A` example with a `TITLE` of
`"US dollar"` yields a one-column table labeled
`"EXR:EXR.D.USD.EUR.SP00.A — US dollar"`. -/
theorem label_first_match :
    (∀ (pd : String → Option Int) (fid key : String) (df : CsvFrame)
        (pre : List String) (c : String) (suf : List String),
      labelFields = pre ++ c :: suf →
      (∀ c' ∈ pre, labelHit df c' = false) →
      labelHit df c = true →
      ∀ s, fetch_series_csv pd fid key df = Except.ok s →
        s.label = fid ++ ":" ++ key ++ " — " ++ firstNonNull df c)
    ∧ (∀ (pd : String → Option Int) (fid key : String) (df : CsvFrame),
        (∀ c ∈ labelFields, labelHit df c = false) →
        ∀ s, fetch_series_csv pd fid key df = Except.ok s →
          s.label = fid ++ ":" ++ key)
    ∧ (∃ s, fetch_series_csv exParse "EXR" "EXR.D.USD.EUR.SP00.A" exFrame
          = Except.ok s
        ∧ s.label = "EXR:EXR.D.USD.EUR.SP00.A — US dollar")
    ∧ (fetch_many
        (fun k => fetch_series_csv exParse "EXR" k (exFrame))
        "EXR" ["EXR.D.USD.EUR.SP00.A"]).1.colLabels
        = ["EXR:EXR.D.USD.EUR.SP00.A — US dollar"] := by
  refine ⟨?_, ?_, ?_, ?_⟩
  · intro pd fid key df pre c suf hsplit hpre hc s hok
    rw [fetch_ok_label pd fid key df s hok]
    unfold composeLabel
    rw [hsplit, find?_of_first pre c suf hpre hc]
  · intro pd fid key df hnone s hok
    rw [fetch_ok_label pd fid key df s hok]
    unfold composeLabel
    rw [List.find?_eq_none.mpr (by intro x hx; simp [hnone x hx])]
  · exact ⟨⟨"EXR:EXR.D.USD.EUR.SP00.A — US dollar", [(some 0, some "1.0943")]⟩,
      rfl, rfl⟩
  · rfl

/-- Witness for C7: the first-match branch applied at the example frame,
whose first hit is `TITLE` (after the absent `TITLE_COMPL`). -/
theorem label_first_match_witness :
    OneSeries.label
        ⟨"EXR:EXR.D.USD.EUR.SP00.A — US dollar", [(some 0, some "1.0943")]⟩
      = "EXR" ++ ":" ++ "EXR.D.USD.EUR.SP00.A" ++ " — " ++ firstNonNull exFrame "TITLE" :=
  label_first_match.1 exParse "EXR" "EXR.D.USD.EUR.SP00.A" exFrame
    ["TITLE_COMPL"] "TITLE" ["UNIT", "CURRENCY", "CURRENCY_DENOM", "EXR_TYPE", "EXR_SUFFIX"]
    rfl (by decide) (by decide) _ rfl

/-- C8: a parsed response lacking the `TIME_PERIOD` column or the
`OBS_VALUE` column makes that key's fetch fail with the format error, which
the merge layer catches and downgrades to a per-key warning naming the
dataset/key pair. -/
theorem missing_fields_fatal :
    (∀ (pd : String → Option Int) (fid key : String) (df : CsvFrame),
      df.hasCol "TIME_PERIOD" = false ∨ df.hasCol "OBS_VALUE" = false →
      fetch_series_csv pd fid key df = Except.error "Unexpected CSV from ECB.")
    ∧ (∀ (pd : String → Option Int) (fid : String) (keys : List String)
        (csvOf : String → CsvFrame) (k : String), k ∈ keys →
        ((csvOf k).hasCol "TIME_PERIOD" = false ∨ (csvOf k).hasCol "OBS_VALUE" = false) →
        mkWarn fid k "Unexpected CSV from ECB."
          ∈ (fetch_many (fun kk => fetch_series_csv pd fid kk (csvOf kk)) fid keys).2) := by
  have herr : ∀ (pd : String → Option Int) (fid key : String) (df : CsvFrame),
      df.hasCol "TIME_PERIOD" = false ∨ df.hasCol "OBS_VALUE" = false →
      fetch_series_csv pd fid key df = Except.error "Unexpected CSV from ECB." := by
    intro pd fid key df hmiss
    unfold fetch_series_csv
    rcases hmiss with hm | hm <;> rw [if_pos (by simp [hm])]
  refine ⟨herr, ?_⟩
  intro pd fid keys csvOf k hk hmiss
  rw [fetch_many_warns]
  apply List.mem_filterMap.mpr
  exact ⟨k, hk, by rw [herr pd fid k (csvOf k) hmiss]⟩

/-- A response with a time-period column but no observed-value column. -/
def badFrame : CsvFrame := ⟨[("TIME_PERIOD", [some "2024-01-02"])]⟩

/-- Witness for C8: a frame lacking `OBS_VALUE` raises the format error. -/
theorem missing_fields_fatal_witness :
    fetch_series_csv exParse "EXR" "K" badFrame
      = Except.error "Unexpected CSV from ECB." :=
  missing_fields_fatal.1 exParse "EXR" "K" badFrame (Or.inr (by decide))

/-! ## Schema resolution (`fetch_dsd`, src/app_ecb.py lines 92–172) -/

/-- Python truthiness of an optional string (`if agency:`): present and
non-empty. -/
def truthy : Option String → Bool
  | none => false
  | some s => !s.isEmpty

/-- The progressive candidate lookup paths, most specific first:
`agency/id/version`, then `agency/id`, then `id`, each included when its
components are truthy — the same construction serves the data structure
and each codelist. -/
def refCandidates (a d v : Option String) : List String :=
  (if truthy a && truthy d && truthy v then
    [a.getD "" ++ "/" ++ d.getD "" ++ "/" ++ v.getD ""] else [])
  ++ (if truthy a && truthy d then [a.getD "" ++ "/" ++ d.getD ""] else [])
  ++ (if truthy d then [d.getD ""] else [])

/-- The candidate loop: a not-found response (`none` from the oracle, the
HTTP 404 `continue`) moves on to the next path, the first found response
wins, exhaustion yields `none`.  Found responses arrive already parsed. -/
def firstHit {α : Type} (oracle : String → Option α) : List String → Option α
  | [] => none
  | p :: rest =>
    match oracle p with
    | some doc => some doc
    | none => firstHit oracle rest

/-- One `<str:Dimension>` of a fetched structure: its id, its (already
extracted, English-preferred) name, and its codelist reference when the
dimension enumerates one. -/
structure DimSpec where
  id : String
  name : String
  clRef : Option (Option String × Option String × Option String)
  deriving DecidableEq

/-- The parsed body of a found datastructure response. -/
structure StructDoc where
  dims : List DimSpec
  deriving DecidableEq

/-- One `{code, name}` row parsed out of a found codelist response. -/
structure CodeRow where
  code : String
  name : String
  deriving DecidableEq

/-- One dimension of the returned schema. -/
structure DimOut where
  id : String
  name : String
  codes : List CodeRow
  deriving DecidableEq

/-- The codes of one dimension: resolve its codelist reference through the
candidate loop; no reference, or exhaustion of all candidate paths, leaves
the codes empty (`codes_df` stays the empty frame). -/
def resolveCodes (clOracle : String → Option (List CodeRow)) (d : DimSpec) :
    List CodeRow :=
  match d.clRef with
  | none => []
  | some (a, cid, v) => (firstHit clOracle (refCandidates a cid v)).getD []

/-- `dim_id.upper()` — extensionally `String.toUpper`, written over the
character list so that concrete instances evaluate. -/
def strUpper (s : String) : String := ⟨s.data.map Char.toUpper⟩

/-- The dimension loop: skip a falsy id and the reserved `TIME_PERIOD`
axis, attach the resolved codes to every other dimension. -/
def processDims (clOracle : String → Option (List CodeRow)) :
    List DimSpec → List DimOut
  | [] => []
  | d :: rest =>
    if d.id.isEmpty || strUpper d.id == "TIME_PERIOD" then processDims clOracle rest
    else ⟨d.id, d.name, resolveCodes clOracle d⟩ :: processDims clOracle rest

/-- The result dict `{"dimensions": ..., "dim_ids": ...}`. -/
structure DsdResult where
  dimensions : List DimOut
  dim_ids : List String
  deriving DecidableEq

/-- `fetch_dsd`: resolve the structure reference (as returned by
`get_dsd_ref`) through the candidate loop; total exhaustion yields the
empty result, a found structure is processed dimension by dimension. -/
def fetch_dsd (structOracle : String → Option StructDoc)
    (clOracle : String → Option (List CodeRow))
    (ref : Option String × Option String × Option String) : DsdResult :=
  match firstHit structOracle (refCandidates ref.1 ref.2.1 ref.2.2) with
  | none => ⟨[], []⟩
  | some doc =>
    let dims := processDims clOracle doc.dims
    ⟨dims, dims.map DimOut.id⟩

theorem firstHit_eq_none {α : Type} (oracle : String → Option α)
    (ps : List String) (h : ∀ p ∈ ps, oracle p = none) :
    firstHit oracle ps = none := by
  induction ps with
  | nil => rfl
  | cons p rest ih =>
    have hp := h p (List.mem_cons_self _ _)
    simp only [firstHit, hp]
    exact ih fun x hx => h x (List.mem_cons_of_mem _ hx)

/-- A structure response carrying only the reserved time dimension,
found on the candidate path `"D1"`. -/
def timeOnlyOracle : String → Option StructDoc := fun p =>
  if p = "D1" then some ⟨[⟨"TIME_PERIOD", "Time period", none⟩]⟩ else none

/-- A codelist oracle with no responses (none are consulted here). -/
def noClOracle : String → Option (List CodeRow) := fun _ => none

/-- C6 counterexample: the base structure IS fetched on the first candidate
path, yet the returned dimension list is empty, because the fetched
structure lists only the reserved `TIME_PERIOD` dimension — an empty
dimension list therefore does not imply that the base structure could not
be fetched on any candidate path. -/
theorem dsd_fallback_cex :
    fetch_dsd timeOnlyOracle noClOracle (none, some "D1", none) = ⟨[], []⟩
    ∧ firstHit timeOnlyOracle (refCandidates none (some "D1") none)
        = some ⟨[⟨"TIME_PERIOD", "Time period", none⟩]⟩ :=
  ⟨rfl, rfl⟩

/-- C6 (amended): a not-found response on one candidate lookup path is
non-fatal and triggers the next candidate — the first found response wins;
exhaustion of all structure candidates yields the empty schema; a found
structure is processed with exhaustion of a dimension's codelist candidates
yielding an empty codes set for that dimension only, the dimension itself
(and all others) still being returned, never a fatal error; an empty
dimension list can also arise when the fetched structure lists no
non-temporal dimensions. -/
theorem dsd_candidate_fallback :
    (∀ (α : Type) (oracle : String → Option α) (pre : List String) (p : String)
        (rest : List String) (doc : α),
      (∀ x ∈ pre, oracle x = none) → oracle p = some doc →
      firstHit oracle (pre ++ p :: rest) = some doc)
    ∧ (∀ so co ref, (∀ p ∈ refCandidates ref.1 ref.2.1 ref.2.2, so p = none) →
        fetch_dsd so co ref = ⟨[], []⟩)
    ∧ (∀ so co ref doc,
        firstHit so (refCandidates ref.1 ref.2.1 ref.2.2) = some doc →
        fetch_dsd so co ref
          = ⟨processDims co doc.dims, (processDims co doc.dims).map DimOut.id⟩)
    ∧ (∀ co (d : DimSpec) a cid v, d.clRef = some (a, cid, v) →
        (∀ p ∈ refCandidates a cid v, co p = none) →
        resolveCodes co d = [])
    ∧ (∀ co (dims : List DimSpec) (d : DimSpec), d ∈ dims →
        (d.id.isEmpty || strUpper d.id == "TIME_PERIOD") = false →
        (⟨d.id, d.name, resolveCodes co d⟩ : DimOut) ∈ processDims co dims) := by
  refine ⟨?_, ?_, ?_, ?_, ?_⟩
  · intro α oracle pre p rest doc hpre hp
    induction pre with
    | nil => simp [firstHit, hp]
    | cons a pre ih =>
      have ha := hpre a (List.mem_cons_self _ _)
      simp only [List.cons_append, firstHit, ha]
      exact ih fun x hx => hpre x (List.mem_cons_of_mem _ hx)
  · intro so co ref h
    unfold fetch_dsd
    rw [firstHit_eq_none so _ h]
  · intro so co ref doc h
    unfold fetch_dsd
    rw [h]
  · intro co d a cid v hcl h
    unfold resolveCodes
    rw [hcl]
    show (firstHit co (refCandidates a cid v)).getD [] = []
    rw [firstHit_eq_none co _ h]
    rfl
  · intro co dims d hd hskip
    induction dims with
    | nil => exact absurd hd (List.not_mem_nil d)
    | cons a rest ih =>
      rcases List.mem_cons.mp hd with hda | hdr
      · subst hda
        simp only [processDims, hskip, Bool.false_eq_true, if_neg]
        exact List.mem_cons_self _ _
      · simp only [processDims]
        by_cases hs : (a.id.isEmpty || strUpper a.id == "TIME_PERIOD") = true
        · rw [if_pos hs]; exact ih hdr
        · rw [if_neg hs]; exact List.mem_cons_of_mem _ (ih hdr)

/-- Witness for the amended C6: exhaustion of every candidate path yields
the empty schema result. -/
theorem dsd_candidate_fallback_witness :
    fetch_dsd (fun _ => none) noClOracle (some "ECB", some "ECB_EXR1", some "1.0")
      = (⟨[], []⟩ : DsdResult) :=
  dsd_candidate_fallback.2.1 (fun _ => none) noClOracle
    (some "ECB", some "ECB_EXR1", some "1.0") (fun p _ => rfl)

end EcbApp
